import Mathlib

/-!
Shallow embedding of the LightwaveRF-go protocol engine (package `lwl`).

The definitions below are translated from the Go source:
  - `Client.handleJSON`, `Client.parseJSON`, `Client.parseLegacy`,
    `Client.Send`, `Client.Subscribe`, `Client.Do`,
    `Client.QueryAllRadiators` (client.go);
  - `Command.New`, `Command.String`, `Command.IsResponse` (commands.go);
  - `LatencyStats.Sample`, `LatencyStats.String` (latencystats.go).

Conventions of the embedding:
  - Go `int32`/`int64` values are modelled as `Int` (none of the modelled
    operations overflow them);
  - Go `uint8` arithmetic is modelled as `Nat` arithmetic reduced `% 256`
    at each operation, matching Go's modular unsigned semantics;
  - Go strings are Lean `String`s; the modelled messages are ASCII, so
    byte indexing and character indexing coincide;
  - the Go standard-library JSON decoder (`encoding/json.Unmarshal`) is
    external to this repository and is modelled as an abstract parameter
    `unmarshal : String → Except String Response`;
  - channel sends are non-blocking in the source (drop on full); delivery
    is modelled as the set of events handed to the fan-out step.
-/

namespace Lwl

/-- Response mirrors the Go struct `lwl.Response` (the fields consumed by the
modelled operations; the remaining fields are numeric/string payload fields
that none of the modelled control flow inspects). `jsonText` models the
internal `json` field holding the original message text. -/
structure Response where
  trans : Int := 0
  mac : String := ""
  time : Int := 0
  pkt : String := ""
  fn : String := ""
  payload : String := ""
  pairType : String := ""
  msg : String := ""
  serial : String := ""
  fw : String := ""
  stat0 : Nat := 0
  stat1 : Nat := 0
  stat2 : Nat := 0
  stat3 : Nat := 0
  stat4 : Nat := 0
  stat5 : Nat := 0
  stat6 : Nat := 0
  stat7 : Nat := 0
  stat8 : Nat := 0
  stat9 : Nat := 0
  jsonText : String := ""
  deriving Repr, DecidableEq

/-- Go zero value `Response` (all fields zero / empty). -/
def Response.zero : Response := {}

/-- Dedup step of `Client.handleJSON`: given the client's current highest
transaction ID `tid` and a freshly parsed event `r`, the source discards the
event when `r.Trans <= c.tid.Load()` and otherwise stores `r.Trans` and fans
the event out to every subscriber.  Returns the new `tid` and whether the
event was fanned out. -/
def handleJSONStep (tid : Int) (r : Response) : Int × Bool :=
  if r.trans ≤ tid then (tid, false) else (r.trans, true)

/-- Iterated receive loop over a list of parsed inbound JSON events: threads
the `tid` state through `handleJSONStep` and collects, in order, exactly the
events that were delivered to subscribers. -/
def processEvents : Int → List Response → Int × List Response
  | tid, [] => (tid, [])
  | tid, r :: rs =>
    let s := handleJSONStep tid r
    let t := processEvents s.1 rs
    (t.1, if s.2 then r :: t.2 else t.2)

/-- Errors produced while decoding an inbound datagram.  `notJSON` mirrors the
Go type `errNotJSON` (returned only when the buffer does not start with the
asterisk marker; `Client.Listen` reacts to it by attempting the legacy
parse).  `invalidJSON` mirrors the generic errors that `Client.parseJSON`
returns for a too-short buffer or a JSON-unmarshalling failure.
`malformedLegacy` mirrors the error of `Client.parseLegacy`. -/
inductive ParseErr where
  | notJSON (msg : String)
  | invalidJSON (msg : String)
  | malformedLegacy (msg : String)
  deriving Repr, DecidableEq

/-- Translation of the Go test `strings.HasPrefix(msg, "*")` used by
`Client.parseJSON`: the buffer is nonempty and its first byte is the
asterisk event marker. -/
def hasMarker (msg : String) : Bool :=
  match msg.data with
  | [] => false
  | c :: _ => c = '*'

/-- Condition stated by the spec (not by the code): the buffer starts with
the event marker byte followed by the exclamation mark, i.e. carries the
full two-byte `*` `!` event marker.  Kept separate so the code's actual
branch condition (`hasMarker`) can be compared against it. -/
def hasMarkerBang (msg : String) : Bool :=
  match msg.data with
  | c1 :: c2 :: _ => c1 = '*' ∧ c2 = '!'
  | _ => false

/-- Translation of the slice `b[2:]` in `Client.parseJSON`: the buffer with
its first two bytes stripped (the modelled messages are ASCII, so bytes and
characters coincide). -/
def stripTwo (msg : String) : String := ⟨msg.data.drop 2⟩

/-- Translation of `Client.parseJSON`.  The Go body: if
`strings.HasPrefix(msg, "*")` fails, return `errNotJSON`; if `len(msg) < 2`,
return a plain error; otherwise unmarshal `b[2:]` and on success store the
original text in the internal `json` field.  `unmarshal` abstracts
`encoding/json.Unmarshal`, which is Go standard library, not repository
code. -/
def parseJSON (unmarshal : String → Except String Response) (msg : String) :
    Except ParseErr Response :=
  if hasMarker msg = false then
    .error (.notJSON "not JSON: Does not start with literal asterisk")
  else if msg.length < 2 then
    .error (.invalidJSON "invalid JSON: Message not long enough")
  else
    match unmarshal (stripTwo msg) with
    | .error e => .error (.invalidJSON e)
    | .ok r => .ok { r with jsonText := msg }

/-- Translation of Go `strings.Cut(msg, ",")` specialised to the one-byte
separator used by `Client.parseLegacy`: splits at the first comma, reporting
whether one was found. -/
def cutComma : List Char → Option (List Char × List Char)
  | [] => none
  | c :: cs =>
    if c = ',' then some ([], cs)
    else match cutComma cs with
      | some p => some (c :: p.1, p.2)
      | none => none

/-- Characters trimmed by Go `strings.TrimSpace` (`unicode.IsSpace`) in the
Latin-1 range; the modelled wire messages contain no other space runes. -/
def goIsSpace (c : Char) : Bool :=
  c = ' ' ∨ c = '\t' ∨ c = '\n' ∨ c = Char.ofNat 11 ∨ c = Char.ofNat 12 ∨
    c = '\r' ∨ c = Char.ofNat 133 ∨ c = Char.ofNat 160

/-- Translation of Go `strings.TrimSpace`: removes leading and trailing
space characters. -/
def goTrimSpace (s : String) : String :=
  ⟨((s.data.dropWhile goIsSpace).reverse.dropWhile goIsSpace).reverse⟩

/-- Translation of `Client.parseLegacy`: splits the message at its first
comma into (sequence-id, payload), trimming space around the payload; a
message without a comma is a malformed-legacy-reply error. -/
def parseLegacy (msg : String) : Except ParseErr (String × String) :=
  match cutComma msg.data with
  | none => .error (.malformedLegacy msg)
  | some p => .ok (⟨p.1⟩, goTrimSpace ⟨p.2⟩)

/-- Decoded classification of one inbound datagram. -/
inductive Decoded where
  | json (r : Response)
  | legacy (sid payload : String)
  deriving Repr, DecidableEq

/-- Decode dispatch of `Client.Listen`: the JSON parse is attempted first;
only the `errNotJSON` outcome falls through to the legacy parse; a JSON
buffer that fails to unmarshal is reported as a malformed-event error (the
caller logs and discards it), never retried as legacy. -/
def decode (unmarshal : String → Except String Response) (msg : String) :
    Except ParseErr Decoded :=
  match parseJSON unmarshal msg with
  | .ok r => .ok (.json r)
  | .error (.notJSON _) =>
    match parseLegacy msg with
    | .ok p => .ok (.legacy p.1 p.2)
    | .error e => .error e
  | .error e => .error e

/-- Whether `decode` routes the buffer down the JSON branch (i.e. the JSON
parse was attempted rather than rejected with `errNotJSON`). -/
def takesJSONBranch (unmarshal : String → Except String Response) (msg : String) : Bool :=
  match parseJSON unmarshal msg with
  | .error (.notJSON _) => false
  | _ => true

/-- Concrete stand-in unmarshaller that always fails, used to evaluate the
branch structure of `decode` (which is independent of the unmarshaller). -/
def failUnmarshal : String → Except String Response := fun _ => .error "unexpected end of JSON input"

/-- Positional parameter of a command template (the Go code passes `...any`;
the command catalogue only ever supplies strings and integers to the verbs
it uses). -/
inductive Arg where
  | str (s : String)
  | int (n : Int)
  deriving Repr, DecidableEq

/-- GoCommand mirrors the Go struct `lwl.Command`: format string, positional
parameters, the legacy-only flag, the expected-response fields `pkt` and
`fn`, and the optional custom matcher. -/
structure GoCommand where
  cmd : String
  opts : List Arg := []
  legacyOnly : Bool := false
  pkt : String := ""
  fn : String := ""
  matchFn : Option (Response → Bool) := none

/-- Rendering core of Go `fmt.Sprintf` for the verbs the command catalogue
uses (`%s` on a string, `%d` on an integer), including the `fmt` package's
diagnostic output for a missing or mistyped argument.  `fmt` is Go standard
library, not repository code; only the verbs reachable from the modelled
commands are rendered. -/
def sprintfAux : List Char → List Arg → List Char
  | '%' :: 's' :: rest, .str s :: args => s.data ++ sprintfAux rest args
  | '%' :: 's' :: rest, .int n :: args =>
    ("%!s(int=" ++ toString n ++ ")").data ++ sprintfAux rest args
  | '%' :: 's' :: rest, [] => "%!s(MISSING)".data ++ sprintfAux rest []
  | '%' :: 'd' :: rest, .int n :: args => (toString n).data ++ sprintfAux rest args
  | '%' :: 'd' :: rest, .str s :: args =>
    ("%!d(string=" ++ s ++ ")").data ++ sprintfAux rest args
  | '%' :: 'd' :: rest, [] => "%!d(MISSING)".data ++ sprintfAux rest []
  | c :: rest, args => c :: sprintfAux rest args
  | [], _ => []

/-- Translation of `Command.String`: renders the format string with the
stored parameters (`fmt.Sprintf(c.cmd, c.opts...)`). -/
def commandString (c : GoCommand) : String := ⟨sprintfAux c.cmd.data c.opts⟩

/-- Translation of `Command.New`.  In the Go source the receiver is a
pointer (`func (c *Command) New(opts ...any) *Command`) and the body reads
`out := c; out.opts = opts; return out`: `out := c` copies the POINTER, so
the assignment writes through the alias into the shared descriptor, and the
returned pointer is the descriptor's own address.  The model returns the
pair (value now stored in the shared descriptor, value observed through the
returned pointer); because of the aliasing both components are the same
value. -/
def commandNew (c : GoCommand) (opts : List Arg) : GoCommand × GoCommand :=
  let c2 := { c with opts := opts }
  (c2, c2)

/-- Variant of `Command.New` written from the spec's words ("instantiating
one with parameters produces a disposable rendered-command value, never
mutating the shared descriptor"): the descriptor is returned unchanged and
only the disposable copy carries the parameters.  Used to state what the
source diverges from. -/
def commandNewSpec (c : GoCommand) (opts : List Arg) : GoCommand × GoCommand :=
  (c, { c with opts := opts })

/-- Translation of `Command.IsResponse`: a custom matcher takes priority;
otherwise the non-empty ones among `fn` and `pkt` must equal the response's
fields; a command with neither set matches nothing. -/
def isResponse (c : GoCommand) (r : Response) : Bool :=
  match c.matchFn with
  | some m => m r
  | none =>
    if c.fn ≠ "" ∧ c.pkt ≠ "" then decide (r.fn = c.fn ∧ r.pkt = c.pkt)
    else if c.fn ≠ "" then decide (r.fn = c.fn)
    else if c.pkt ≠ "" then decide (r.pkt = c.pkt)
    else false

/-- Catalogue entry `CmdRegister` (legacy-only pairing command). -/
def cmdRegister : GoCommand := { cmd := "!F*p", legacyOnly := true }

/-- Catalogue entry `CmdHubCall`. -/
def cmdHubCall : GoCommand := { cmd := "@H", fn := "hubCall" }

/-- Catalogue entry `CmdQueryRadiators` (room summary). -/
def cmdQueryRadiators : GoCommand := { cmd := "@R", pkt := "room", fn := "summary" }

/-- Catalogue entry `CmdQueryRadiator` (per-room detail query). -/
def cmdQueryRadiator : GoCommand := { cmd := "@?%s", pkt := "room", fn := "read" }

/-- Sample hubCall response (shape of the documented `@H` reply), used to
exercise the expected-response predicate on concrete inputs. -/
def hubCallResponse : Response := { trans := 14619, mac := "20:3B:85", pkt := "system", fn := "hubCall" }

/-- Result of Go `ctx.Err()` once a context completes: `context.Canceled`
or `context.DeadlineExceeded` (timeout).  Distinct sentinel error values in
Go. -/
inductive CtxErr where
  | canceled
  | deadlineExceeded
  deriving Repr, DecidableEq

/-- First event to arrive at the three-way select inside `Client.Do`: a
legacy reply on the `chs` channel, a JSON event on the `chr` channel, or
context completion (`ctx.Done()`). -/
inductive DoEvent where
  | legacy (msg : String)
  | json (r : Response)
  | ctxDone (e : CtxErr)
  deriving Repr, DecidableEq

/-- Errors returned by `Client.Do`: the `fmt.Errorf`-built unexpected-reply
error carrying the offending legacy message, or the propagated `ctx.Err()`
value.  Different constructors model Go's distinguishable error values. -/
inductive DoErr where
  | unexpectedReply (msg : String)
  | fromCtx (e : CtxErr)
  deriving Repr, DecidableEq

/-- Outcome selection of `Client.Do`: after `Send(cmd.String(), chr, chs)`
the source waits on a select among the legacy channel, the JSON channel and
`ctx.Done()`.  For each possible first-arriving event this gives the
(Response, error) pair `Do` returns: a legacy reply whose trimmed text is
not "OK" is an unexpected-reply error; a trimmed "OK" falls through to the
zero Response with no error; a JSON event matching `cmd.IsResponse` is
returned with no error (its round-trip latency is sampled); a non-matching
JSON event falls through to the zero Response with no error; context
completion returns `ctx.Err()`. -/
def doStep (cmd : GoCommand) (ev : DoEvent) : Response × Option DoErr :=
  match ev with
  | .legacy m =>
    if goTrimSpace m = "OK" then (Response.zero, none)
    else (Response.zero, some (.unexpectedReply m))
  | .json r =>
    if isResponse cmd r then (r, none) else (Response.zero, none)
  | .ctxDone e => (Response.zero, some (.fromCtx e))

/-- Registry-relevant state of `lwl.Client`: the sequence-ID counter and the
two pending maps.  Channels are modelled by numeric identifiers; a map entry
of `some ch` means the key is subscribed with channel value `ch` (`ch` is an
`Option Nat` because a Go channel variable stored in the map may itself be
nil). -/
structure ClientState where
  sid : Int := 0
  pendingJSON : String → Option (Option Nat) := fun _ => none
  pendingLegacy : String → Option (Option Nat) := fun _ => none
  mac : String := ""

/-- Translation of `Client.Subscribe`: an empty sid allocates the next
sequence ID as the key; both channel values are stored under the key
unconditionally.  Returns the effective key. -/
def clientSubscribe (st : ClientState) (sid : String) (chr chs : Option Nat) :
    ClientState × String :=
  let key := if sid = "" then toString (st.sid + 1) else sid
  ({ st with
      sid := if sid = "" then st.sid + 1 else st.sid,
      pendingJSON := fun k => if k = key then some chr else st.pendingJSON k,
      pendingLegacy := fun k => if k = key then some chs else st.pendingLegacy k },
    key)

/-- Translation of `Client.Unsubscribe`: deletes both map entries for the
key. -/
def clientUnsubscribe (st : ClientState) (sid : String) : ClientState :=
  { st with
      pendingJSON := fun k => if k = sid then none else st.pendingJSON k,
      pendingLegacy := fun k => if k = sid then none else st.pendingLegacy k }

/-- Translation of `Client.Send`: allocates a fresh sequence ID, builds the
wire line (optional `:`-prefixed MAC tag, sid, payload, comma-joined),
subscribes the two reply channels under the new sid only when BOTH are
non-nil (`chr != nil && chs != nil`), transmits, and returns the sid.  The
result is (new state, allocated sid, transmitted wire line). -/
def clientSend (st : ClientState) (payload : String) (chr chs : Option Nat) :
    ClientState × String × String :=
  let sid := toString (st.sid + 1)
  let st1 : ClientState := { st with sid := st.sid + 1 }
  let out := (if st.mac = "" then [] else [":" ++ st.mac]) ++ [sid, payload]
  let msg := String.intercalate "," out
  let st2 := if chr.isSome && chs.isSome then (clientSubscribe st1 sid chr chs).1 else st1
  (st2, sid, msg)

/-- Inner loop body of `Client.QueryAllRadiators` for one stat byte: the Go
loop runs `bit` from 0 through 8 INCLUSIVE; `mask := uint8(1) << bit` is
uint8 arithmetic, so it is `(1 <<< bit) % 256` (zero when `bit = 8`), and
the appended slot `1 + uint8(stat)*8 + bit` is likewise reduced `% 256`. -/
def roomBits (stat : Nat) (bits : Nat) : List Nat :=
  (List.range 9).filterMap fun bit =>
    let mask := (1 <<< bit) % 256
    if bits &&& mask ≠ 0 then some ((1 + (stat % 256) * 8 + bit) % 256) else none

/-- Variant of `roomBits` whose loop stops after bit 7 (`bit <= 7`), written
to state that the source's ninth iteration (`bit = 8`) never contributes a
room. -/
def roomBitsSeven (stat : Nat) (bits : Nat) : List Nat :=
  (List.range 8).filterMap fun bit =>
    let mask := (1 <<< bit) % 256
    if bits &&& mask ≠ 0 then some ((1 + (stat % 256) * 8 + bit) % 256) else none

/-- Outer loop of the room-summary decode in `Client.QueryAllRadiators`
(`for stat, bits := range bitfields`), threading the stat-byte index. -/
def decodeRoomsAux : Nat → List Nat → List Nat
  | _, [] => []
  | stat, bits :: rest => roomBits stat bits ++ decodeRoomsAux (stat + 1) rest

/-- Room list derived from the ten status bitfields `stat0`..`stat9` of a
room-summary response, in the order `Client.QueryAllRadiators` appends
them. -/
def decodeRooms (bf : List Nat) : List Nat := decodeRoomsAux 0 bf

/-- Bitfield vector `[r.Stat0, ..., r.Stat9]` taken from a response, as
built by `Client.QueryAllRadiators`. -/
def statFields (r : Response) : List Nat :=
  [r.stat0, r.stat1, r.stat2, r.stat3, r.stat4,
   r.stat5, r.stat6, r.stat7, r.stat8, r.stat9]

/-- LatencyStats mirrors the Go struct `lwl.LatencyStats`; durations are in
nanoseconds (`time.Duration` is an `int64` nanosecond count). -/
structure LatencyStats where
  name : String := ""
  count : Int := 0
  total : Int := 0
  min : Int := 0
  max : Int := 0
  deriving Repr, DecidableEq

/-- Translation of `NewLatencyStats`: zero statistics under a name. -/
def newLatencyStats (name : String) : LatencyStats := { name := name }

/-- Translation of `LatencyStats.Sample`: increments the count, accumulates
the total, replaces the minimum when it is zero (the unset sentinel) or
larger than the sample, and raises the maximum when exceeded. -/
def lsSample (l : LatencyStats) (t : Int) : LatencyStats :=
  { l with
      count := l.count + 1,
      total := l.total + t,
      min := if l.min = 0 ∨ l.min > t then t else l.min,
      max := if t > l.max then t else l.max }

/-- Mean computed inside `LatencyStats.String`: zero when no samples have
been collected, otherwise the truncated quotient `total.Nanoseconds() /
count` (Go int64 division truncates toward zero, `Int.tdiv`). -/
def lsMean (l : LatencyStats) : Int :=
  if l.count > 0 then Int.tdiv l.total l.count else 0

/-- Translation of `LatencyStats.String`: renders name, sample count, max,
mean and min.  Go prints `time.Duration` values with unit suffixes; the
model prints the underlying nanosecond counts, which carries the same
information. -/
def lsString (l : LatencyStats) : String :=
  "\n" ++ l.name ++ ":\n  Samples: " ++ toString l.count ++
    "\n      Max: " ++ toString l.max ++
    "\n     Mean: " ++ toString (lsMean l) ++
    "\n      Min: " ++ toString l.min ++ "\n"

theorem handleJSONStep_delivered (tid : Int) (r : Response) :
    (handleJSONStep tid r).2 = decide (tid < r.trans) := by
  unfold handleJSONStep
  by_cases h : r.trans ≤ tid
  · simp [h, not_lt_of_le h]
  · simp [h, lt_of_not_le h]

theorem handleJSONStep_tid (tid : Int) (r : Response) :
    (handleJSONStep tid r).1 = if tid < r.trans then r.trans else tid := by
  unfold handleJSONStep
  by_cases h : r.trans ≤ tid
  · simp [h, not_lt_of_le h]
  · simp [h, lt_of_not_le h]

theorem processEvents_delivered_gt (tid : Int) (rs : List Response) :
    ∀ x ∈ (processEvents tid rs).2, tid < x.trans := by
  induction rs generalizing tid with
  | nil => simp [processEvents]
  | cons r rs ih =>
    intro x hx
    simp only [processEvents] at hx
    by_cases h : r.trans ≤ tid
    · have hd : handleJSONStep tid r = (tid, false) := by simp [handleJSONStep, h]
      rw [hd] at hx
      simp at hx
      exact ih tid x hx
    · have hd : handleJSONStep tid r = (r.trans, true) := by simp [handleJSONStep, h]
      rw [hd] at hx
      simp at hx
      rcases hx with hx | hx
      · subst hx; exact lt_of_not_le h
      · exact lt_trans (lt_of_not_le h) (ih r.trans x hx)

theorem processEvents_count_le_one (tid : Int) (rs : List Response) (t : Int) :
    ((processEvents tid rs).2.countP (fun r => r.trans == t)) ≤ 1 := by
  induction rs generalizing tid with
  | nil => simp [processEvents]
  | cons r rs ih =>
    simp only [processEvents]
    by_cases h : r.trans ≤ tid
    · have hd : handleJSONStep tid r = (tid, false) := by simp [handleJSONStep, h]
      rw [hd]
      simpa using ih tid
    · have hd : handleJSONStep tid r = (r.trans, true) := by simp [handleJSONStep, h]
      rw [hd]
      simp only [List.countP_cons]
      by_cases ht : r.trans == t
      · have htv : r.trans = t := by exact_mod_cast of_decide_eq_true ht
        have hzero : ((processEvents r.trans rs).2.countP (fun x => x.trans == t)) = 0 := by
          rw [List.countP_eq_zero]
          intro x hx
          have := processEvents_delivered_gt r.trans rs x hx
          simp only [beq_iff_eq]
          omega
        simp [ht, hzero]
      · simp [ht]
        simpa using ih r.trans

/-- C1: every inbound JSON event with transaction ID at most the highest seen
is discarded with the state unchanged; one with a strictly greater ID is
delivered and recorded as the new highest; over any inbound sequence, at most
one delivered event carries any given transaction ID. -/
theorem dedup_at_most_once (tid : Int) (r : Response) (rs : List Response) (t : Int) :
    ((handleJSONStep tid r).2 = decide (tid < r.trans)) ∧
    ((handleJSONStep tid r).1 = if tid < r.trans then r.trans else tid) ∧
    ((processEvents tid rs).2.countP (fun x => x.trans == t)) ≤ 1 :=
  ⟨handleJSONStep_delivered tid r, handleJSONStep_tid tid r,
    processEvents_count_le_one tid rs t⟩

theorem cutComma_eq_none (l : List Char) (h : ¬ ',' ∈ l) : cutComma l = none := by
  induction l with
  | nil => rfl
  | cons c cs ih =>
    have hc : ¬ c = ',' := by
      intro hc
      exact h (hc ▸ List.mem_cons_self c cs)
    have hcs : ¬ ',' ∈ cs := fun hm => h (List.mem_cons_of_mem c hm)
    simp only [cutComma, if_neg hc, ih hcs]

/-- C3 counterexample: the buffer consisting of the asterisk marker followed
by a letter other than the exclamation mark is still routed down the JSON
branch of decode (the source checks only the leading asterisk byte), even
though it does not carry the two-byte marker the claim requires for JSON
parsing; so it is not parsed as a legacy reply. -/
theorem decode_star_without_bang_is_json_branch :
    takesJSONBranch failUnmarshal "*a" = true ∧ hasMarkerBang "*a" = false ∧
      decode failUnmarshal "*a" =
        .error (.invalidJSON "unexpected end of JSON input") :=
  ⟨rfl, rfl, rfl⟩

/-- C3 (amended): decode routes a buffer down the JSON branch exactly when
it starts with the single event-marker byte (the second byte is not
checked); in the JSON branch a buffer of at least two bytes has its
two-byte head stripped and the remainder unmarshalled, with an
unmarshalling failure reported as a malformed-event error, never silently
dropped; a buffer not starting with the marker is parsed as a legacy
reply. -/
theorem decode_json_branch (u : String → Except String Response) (msg : String) :
    (takesJSONBranch u msg = hasMarker msg) ∧
    (hasMarker msg = true → 2 ≤ msg.length →
      decode u msg = (match u (stripTwo msg) with
        | .error e => .error (.invalidJSON e)
        | .ok r => .ok (.json { r with jsonText := msg }))) ∧
    (hasMarker msg = false →
      decode u msg = (match parseLegacy msg with
        | .ok p => .ok (.legacy p.1 p.2)
        | .error e => .error e)) := by
  refine ⟨?_, ?_, ?_⟩
  · unfold takesJSONBranch parseJSON
    cases hmb : hasMarker msg
    · simp
    · by_cases hl : msg.length < 2
      · simp [hl]
      · cases hu : u (stripTwo msg) <;> simp [hl, hu]
  · intro hm hl
    unfold decode parseJSON
    rw [hm]
    have hl2 : ¬ msg.length < 2 := by omega
    cases hu : u (stripTwo msg) <;> simp [hl2, hu]
  · intro hm
    unfold decode parseJSON
    rw [hm]
    cases hp : parseLegacy msg <;> simp [hp]

theorem decode_json_branch_witness :
    (takesJSONBranch failUnmarshal "*!x" = hasMarker "*!x") ∧
    decode failUnmarshal "*!x" =
      .error (.invalidJSON "unexpected end of JSON input") ∧
    decode failUnmarshal "12,OK" = .ok (.legacy "12" "OK") := by
  refine ⟨(decode_json_branch failUnmarshal "*!x").1, ?_, ?_⟩
  · have h := (decode_json_branch failUnmarshal "*!x").2.1 (by decide) (by decide)
    rw [h]
    rfl
  · have h := (decode_json_branch failUnmarshal "12,OK").2.2 (by decide)
    rw [h]
    rfl

/-- C6: decode is total on its error branches: a legacy line without a comma
yields the malformed-legacy-reply error (never a panic), and a buffer that
starts with the asterisk marker but is shorter than the two-byte event
head yields an error before any two-byte slice is taken, so no
out-of-bounds access occurs. -/
theorem decode_error_totality (u : String → Except String Response) (msg : String) :
    ((¬ ',' ∈ msg.data) → parseLegacy msg = .error (.malformedLegacy msg)) ∧
    (hasMarker msg = true → msg.length < 2 →
      parseJSON u msg =
        .error (.invalidJSON "invalid JSON: Message not long enough")) := by
  constructor
  · intro h
    unfold parseLegacy
    rw [cutComma_eq_none msg.data h]
  · intro hm hl
    unfold parseJSON
    rw [hm, if_neg (by decide), if_pos hl]

theorem decode_error_totality_witness :
    parseLegacy "hello" = .error (.malformedLegacy "hello") ∧
    parseJSON failUnmarshal "*" =
      .error (.invalidJSON "invalid JSON: Message not long enough") :=
  ⟨(decode_error_totality failUnmarshal "hello").1 (by decide),
   (decode_error_totality failUnmarshal "*").2 (by decide) (by decide)⟩

theorem toDigitsCore_length_le (b fuel n : Nat) (ds : List Char) :
    ds.length ≤ (Nat.toDigitsCore b fuel n ds).length := by
  induction fuel generalizing n ds with
  | zero => simp [Nat.toDigitsCore]
  | succ f ih =>
    simp only [Nat.toDigitsCore]
    split
    · simp
    · exact le_trans (by simp) (ih _ _)

theorem toDigitsCore_length_succ (b fuel n : Nat) (ds : List Char) :
    ds.length + 1 ≤ (Nat.toDigitsCore b (fuel + 1) n ds).length := by
  simp only [Nat.toDigitsCore]
  split
  · simp
  · exact le_trans (by simp) (toDigitsCore_length_le b fuel _ _)

theorem natRepr_ne_empty (m : Nat) : Nat.repr m ≠ "" := by
  intro h
  have hd : (Nat.repr m).data = [] := by rw [h]
  have hlen := toDigitsCore_length_succ 10 m m []
  simp only [Nat.repr, Nat.toDigits] at hd
  rw [List.asString] at hd
  simp at hd
  rw [hd] at hlen
  simp at hlen

theorem intToString_ne_empty (n : Int) : toString n ≠ "" := by
  cases n with
  | ofNat m =>
    show toString m ≠ ""
    exact natRepr_ne_empty m
  | negSucc m =>
    show "-" ++ toString (m + 1) ≠ ""
    intro h
    have hd : ("-" ++ toString (m + 1)).data = [] := by rw [h]
    simp [String.data_append] at hd

/-- C2: over every possible first-arriving event, Do returns a non-nil error
exactly for an unexpected legacy reply (trimmed text other than "OK"), for
cancellation, or for a deadline timeout; the legacy case carries the
unexpected-reply error, context completion propagates the context's error,
a matching JSON event is returned without error, and the three error kinds
are pairwise distinguishable values. -/
theorem do_error_classification (cmd : GoCommand) (ev : DoEvent) :
    ((doStep cmd ev).2.isSome = true ↔
      (∃ m, ev = .legacy m ∧ goTrimSpace m ≠ "OK") ∨ (∃ e, ev = .ctxDone e)) ∧
    (∀ m, (doStep cmd (.legacy m)).2 =
      if goTrimSpace m = "OK" then none else some (.unexpectedReply m)) ∧
    (∀ e, (doStep cmd (.ctxDone e)).2 = some (.fromCtx e)) ∧
    (∀ r, isResponse cmd r = true → doStep cmd (.json r) = (r, none)) ∧
    (∀ m e, DoErr.unexpectedReply m ≠ DoErr.fromCtx e) ∧
    DoErr.fromCtx .canceled ≠ DoErr.fromCtx .deadlineExceeded := by
  refine ⟨?_, ?_, ?_, ?_, ?_, by simp⟩
  · cases ev with
    | legacy m =>
      by_cases hm : goTrimSpace m = "OK" <;> simp [doStep, hm]
    | json r =>
      by_cases hr : isResponse cmd r <;> simp [doStep, hr]
    | ctxDone e => simp [doStep]
  · intro m
    by_cases hm : goTrimSpace m = "OK" <;> simp [doStep, hm]
  · intro e
    rfl
  · intro r hr
    simp [doStep, hr]
  · intro m e
    simp

theorem do_error_classification_witness :
    (doStep cmdHubCall (.legacy " OK ")).2 = none ∧
    (doStep cmdHubCall (.legacy "ERR,6,\"Invalid Command\"")).2 =
      some (.unexpectedReply "ERR,6,\"Invalid Command\"") ∧
    (doStep cmdHubCall (.ctxDone .canceled)).2 = some (.fromCtx .canceled) ∧
    doStep cmdHubCall (.json hubCallResponse) = (hubCallResponse, none) := by
  refine ⟨?_, ?_, ?_, ?_⟩
  · rw [(do_error_classification cmdHubCall (.legacy " OK ")).2.1 " OK "]
    rfl
  · rw [(do_error_classification cmdHubCall
      (.legacy "ERR,6,\"Invalid Command\"")).2.1 "ERR,6,\"Invalid Command\""]
    rfl
  · exact (do_error_classification cmdHubCall (.ctxDone .canceled)).2.2.1 .canceled
  · exact (do_error_classification cmdHubCall (.json hubCallResponse)).2.2.2.1
      hubCallResponse (by decide)

/-- C4 (code defect): `Command.New` copies the receiver POINTER (`out := c`)
rather than the struct, so instantiating a descriptor writes the parameters
into the process-wide shared descriptor and returns the descriptor's own
address.  At the concrete input `CmdQueryRadiator.New("R1")` the shared
descriptor is mutated (its opts change), the returned value aliases the
descriptor, and after a second instantiation with "R2" the first
instantiation's pointer renders "@?R2" — the two renderings are not
independent.  The spec-faithful variant `commandNewSpec` leaves the
descriptor unchanged. -/
theorem commandNew_mutates_descriptor :
    ((commandNew cmdQueryRadiator [.str "R1"]).1).opts ≠ cmdQueryRadiator.opts ∧
    (commandNew cmdQueryRadiator [.str "R1"]).2 =
      (commandNew cmdQueryRadiator [.str "R1"]).1 ∧
    commandString
      ((commandNew ((commandNew cmdQueryRadiator [.str "R1"]).1) [.str "R2"]).1) = "@?R2" ∧
    commandString ((commandNew cmdQueryRadiator [.str "R1"]).2) = "@?R1" ∧
    (commandNewSpec cmdQueryRadiator [.str "R1"]).1 = cmdQueryRadiator := by
  refine ⟨by decide, rfl, rfl, rfl, rfl⟩

/-- C7: sampling 100 ms then 300 ms (durations in nanoseconds) yields
min 100 ms, max 300 ms and mean 200 ms; with zero samples collected the
report renders (totally) with a zero mean duration. -/
theorem latency_stats_sample_and_report :
    (lsSample (lsSample (newLatencyStats "@H") 100000000) 300000000).min = 100000000 ∧
    (lsSample (lsSample (newLatencyStats "@H") 100000000) 300000000).max = 300000000 ∧
    lsMean (lsSample (lsSample (newLatencyStats "@H") 100000000) 300000000) = 200000000 ∧
    lsMean (newLatencyStats "@H") = 0 ∧
    lsString (newLatencyStats "@H") =
      "\n@H:\n  Samples: 0\n      Max: 0\n     Mean: 0\n      Min: 0\n" := by
  refine ⟨by decide, by decide, by decide, by decide, rfl⟩

/-- C10: `LatencyStats.Sample` treats a stored minimum of zero as the unset
sentinel — whenever the stored minimum is zero the next sample replaces it
unconditionally — so sampling a zero duration and then any positive
duration reports the positive duration as the minimum, not zero. -/
theorem min_zero_sentinel (l : LatencyStats) (t d : Int) (name : String) (hd : 0 < d) :
    (l.min = 0 → (lsSample l t).min = t) ∧
    (lsSample (lsSample (newLatencyStats name) 0) d).min = d := by
  constructor
  · intro h
    simp [lsSample, h]
  · simp [lsSample, newLatencyStats]

theorem min_zero_sentinel_witness :
    (lsSample (newLatencyStats "@H") 5).min = 5 ∧
    (lsSample (lsSample (newLatencyStats "@H") 0) 100).min = 100 :=
  ⟨(min_zero_sentinel (newLatencyStats "@H") 5 100 "@H" (by decide)).1 rfl,
   (min_zero_sentinel (newLatencyStats "@H") 5 100 "@H" (by decide)).2⟩

theorem mem_roomBits (stat bits b : Nat) (hstat : stat < 10) (hb : b < 8)
    (hbit : bits.testBit b = true) :
    (1 + stat * 8 + b) ∈ roomBits stat bits := by
  unfold roomBits
  rw [List.mem_filterMap]
  refine ⟨b, List.mem_range.mpr (by omega), ?_⟩
  have hpow : (2 : Nat) ^ b < 256 := by
    calc (2 : Nat) ^ b ≤ 2 ^ 7 := Nat.pow_le_pow_right (by norm_num) (by omega)
    _ < 256 := by norm_num
  have hmask : (1 <<< b) % 256 = 2 ^ b := by
    rw [Nat.one_shiftLeft]
    exact Nat.mod_eq_of_lt hpow
  show (if bits &&& (1 <<< b) % 256 ≠ 0 then
      some ((1 + (stat % 256) * 8 + b) % 256) else none) = some (1 + stat * 8 + b)
  rw [hmask]
  have hand : bits &&& 2 ^ b ≠ 0 := by
    rw [Nat.and_two_pow]
    simp [hbit]
  rw [if_pos hand]
  have h1 : stat % 256 = stat := Nat.mod_eq_of_lt (by omega)
  have h2 : (1 + stat * 8 + b) % 256 = 1 + stat * 8 + b := Nat.mod_eq_of_lt (by omega)
  rw [h1, h2]

theorem mem_decodeRoomsAux (bf : List Nat) (s0 n x : Nat) (hn : n < bf.length)
    (hx : x ∈ roomBits (s0 + n) (bf.getD n 0)) :
    x ∈ decodeRoomsAux s0 bf := by
  induction bf generalizing s0 n with
  | nil => simp at hn
  | cons bits rest ih =>
    cases n with
    | zero =>
      unfold decodeRoomsAux
      apply List.mem_append_left
      simpa using hx
    | succ m =>
      unfold decodeRoomsAux
      apply List.mem_append_right
      apply ih (s0 + 1) m (by simp at hn; omega)
      have harith : s0 + 1 + m = s0 + (m + 1) := by omega
      rw [harith]
      simpa using hx

/-- C5: a set bit b of stat byte n contributes room number 1 + 8n + b to the
derived room list (1-indexed), and with stat0 = 255 and the other nine stat
fields zero the derived list is exactly rooms 1 through 8. -/
theorem room_bitfield_mapping (bf : List Nat) (n b : Nat)
    (hn : n < bf.length) (hn10 : n < 10) (hb : b < 8)
    (hbit : (bf.getD n 0).testBit b = true) :
    (1 + 8 * n + b) ∈ decodeRooms bf ∧
    decodeRooms (statFields { stat0 := 255 }) = [1, 2, 3, 4, 5, 6, 7, 8] := by
  constructor
  · unfold decodeRooms
    have hm := mem_decodeRoomsAux bf 0 n (1 + n * 8 + b) hn ?_
    · have : 1 + 8 * n + b = 1 + n * 8 + b := by ring_nf
      rw [this]
      exact hm
    · have := mem_roomBits n (bf.getD n 0) b hn10 hb hbit
      simpa using this
  · rfl

theorem room_bitfield_mapping_witness :
    (1 + 8 * 0 + 3) ∈ decodeRooms [255, 0, 0, 0, 0, 0, 0, 0, 0, 0] ∧
    decodeRooms (statFields { stat0 := 255 }) = [1, 2, 3, 4, 5, 6, 7, 8] :=
  room_bitfield_mapping [255, 0, 0, 0, 0, 0, 0, 0, 0, 0] 0 3
    (by decide) (by decide) (by decide) (by decide)

theorem roomBits_eq_roomBitsSeven (stat bits : Nat) :
    roomBits stat bits = roomBitsSeven stat bits := by
  unfold roomBits roomBitsSeven
  rw [show (9 : Nat) = 8 + 1 from rfl, List.range_succ, List.filterMap_append]
  have h8 : (fun bit =>
      let mask := (1 <<< bit) % 256
      if bits &&& mask ≠ 0 then some ((1 + (stat % 256) * 8 + bit) % 256) else none) 8
      = none := by
    show (if bits &&& (1 <<< 8) % 256 ≠ 0 then
        some ((1 + (stat % 256) * 8 + 8) % 256) else none) = none
    have hz : (1 <<< 8) % 256 = 0 := by decide
    rw [hz]
    simp
  simp [h8]

theorem roomBits_length_le_eight (stat bits : Nat) : (roomBits stat bits).length ≤ 8 := by
  rw [roomBits_eq_roomBitsSeven]
  unfold roomBitsSeven
  calc (List.filterMap _ (List.range 8)).length ≤ (List.range 8).length :=
        List.length_filterMap_le _ _
  _ = 8 := by simp

theorem roomBits_bounds (stat bits : Nat) (hstat : stat ≤ 9) :
    ∀ r ∈ roomBits stat bits, 1 ≤ r ∧ r ≤ 80 := by
  intro r hr
  rw [roomBits_eq_roomBitsSeven] at hr
  unfold roomBitsSeven at hr
  rw [List.mem_filterMap] at hr
  obtain ⟨b, hb, hfb⟩ := hr
  rw [List.mem_range] at hb
  have hfb2 : (if bits &&& (1 <<< b) % 256 ≠ 0 then
      some ((1 + (stat % 256) * 8 + b) % 256) else none) = some r := hfb
  by_cases hcond : bits &&& (1 <<< b) % 256 ≠ 0
  · rw [if_pos hcond] at hfb2
    have hr2 : (1 + (stat % 256) * 8 + b) % 256 = r := Option.some.inj hfb2
    have hs : stat % 256 = stat := Nat.mod_eq_of_lt (by omega)
    rw [hs] at hr2
    have hlt : 1 + stat * 8 + b < 256 := by omega
    rw [Nat.mod_eq_of_lt hlt] at hr2
    omega
  · rw [if_neg hcond] at hfb2
    exact absurd hfb2 (by simp)

theorem decodeRoomsAux_bounds (bf : List Nat) (s0 : Nat) (h : s0 + bf.length ≤ 10) :
    ∀ r ∈ decodeRoomsAux s0 bf, 1 ≤ r ∧ r ≤ 80 := by
  induction bf generalizing s0 with
  | nil => simp [decodeRoomsAux]
  | cons bits rest ih =>
    intro r hr
    unfold decodeRoomsAux at hr
    rw [List.mem_append] at hr
    rcases hr with hr | hr
    · exact roomBits_bounds s0 bits (by simp at h; omega) r hr
    · exact ih (s0 + 1) (by simp at h; omega) r hr

/-- C9: the inner loop of the room-summary decode runs the bit index from 0
through 8 inclusive, but on the iteration with bit index 8 the uint8 mask
1 << 8 wraps to 0 modulo 2^8, so that iteration never marks a room: the
loop is equivalent to one stopping at bit 7, each stat byte contributes at
most 8 rooms, and for the ten stat bytes every derived room number lies
between 1 and 80. -/
theorem bit_eight_mask_wraps (stat bits : Nat) (bf : List Nat) (hlen : bf.length = 10) :
    (1 <<< 8) % 256 = 0 ∧
    roomBits stat bits = roomBitsSeven stat bits ∧
    (roomBits stat bits).length ≤ 8 ∧
    ∀ r ∈ decodeRooms bf, 1 ≤ r ∧ r ≤ 80 := by
  refine ⟨by decide, roomBits_eq_roomBitsSeven stat bits,
    roomBits_length_le_eight stat bits, ?_⟩
  unfold decodeRooms
  exact decodeRoomsAux_bounds bf 0 (by omega)

theorem bit_eight_mask_wraps_witness :
    (1 <<< 8) % 256 = 0 ∧
    roomBits 0 255 = roomBitsSeven 0 255 ∧
    (roomBits 0 255).length ≤ 8 ∧
    (1 ≤ 8 ∧ 8 ≤ 80) := by
  obtain ⟨h1, h2, h3, h4⟩ :=
    bit_eight_mask_wraps 0 255 [255, 0, 0, 0, 0, 0, 0, 0, 0, 0] (by decide)
  exact ⟨h1, h2, h3, h4 8 (by decide)⟩

/-- C8: Send registers the reply channels under the newly allocated sequence
ID exactly when both channels are non-nil (`chr != nil && chs != nil`); when
either channel is nil — in particular when exactly one is — no subscription
is made at all: both pending maps are left untouched, so the receive loop,
which delivers only to registered entries, can never hand a reply to the
non-nil channel. -/
theorem send_subscribes_iff_both (st : ClientState) (payload : String)
    (chr chs : Option Nat) :
    (∀ a b, chr = some a → chs = some b →
      (clientSend st payload chr chs).1.pendingJSON (toString (st.sid + 1)) = some (some a) ∧
      (clientSend st payload chr chs).1.pendingLegacy (toString (st.sid + 1)) = some (some b)) ∧
    ((chr.isSome && chs.isSome) = false →
      ∀ k, (clientSend st payload chr chs).1.pendingJSON k = st.pendingJSON k ∧
           (clientSend st payload chr chs).1.pendingLegacy k = st.pendingLegacy k) := by
  constructor
  · intro a b ha hb
    subst ha
    subst hb
    unfold clientSend clientSubscribe
    simp [intToString_ne_empty (st.sid + 1)]
  · intro h k
    unfold clientSend
    simp only [h]
    exact ⟨rfl, rfl⟩

theorem send_subscribes_iff_both_witness :
    ((clientSend {} "@H" (some 1) (some 2)).1.pendingJSON "1" = some (some 1) ∧
      (clientSend {} "@H" (some 1) (some 2)).1.pendingLegacy "1" = some (some 2)) ∧
    ((clientSend {} "@H" (some 1) none).1.pendingJSON "7" =
        (ClientState.pendingJSON {}) "7" ∧
      (clientSend {} "@H" (some 1) none).1.pendingLegacy "7" =
        (ClientState.pendingLegacy {}) "7") :=
  ⟨(send_subscribes_iff_both {} "@H" (some 1) (some 2)).1 1 2 rfl rfl,
   (send_subscribes_iff_both {} "@H" (some 1) none).2 rfl "7"⟩

end Lwl
